import Mathlib

/-!
# Weather CLI: a shallow embedding of `env.go`, `weather.go` and `main.go`

Go strings are byte sequences, so a string is a list of byte values.  The
parts of the Go standard library that the three source files call
(`strings.TrimSpace`, `strings.Cut`, `bufio.Scanner`, `os.Getenv`,
`os.Setenv`, `fmt` verbs, `url.Values.Encode`) are modelled after their
documented behaviour on a Unix system; everything the operating system, the
network or the Unicode tables decide is an explicit input.
-/

namespace Weather

/-- A Go `string`: a sequence of bytes. -/
abbrev Bytes := List Nat

/-! ## `unicode/utf8` -/

/-- The replacement rune `utf8.RuneError` (U+FFFD). -/
def runeError : Nat := 0xFFFD

/-- UTF-8 encoding of a rune, as `utf8.AppendRune` (and the conversion
`string(r)`) produce it: surrogates and out-of-range values encode U+FFFD. -/
def encodeRune (r : Nat) : Bytes :=
  if r < 0x80 then [r]
  else if r < 0x800 then [0xC0 + r / 64, 0x80 + r % 64]
  else if (0xD800 ≤ r ∧ r ≤ 0xDFFF) ∨ 0x10FFFF < r then [0xEF, 0xBF, 0xBD]
  else if r < 0x10000 then [0xE0 + r / 4096, 0x80 + r / 64 % 64, 0x80 + r % 64]
  else [0xF0 + r / 262144, 0x80 + r / 4096 % 64, 0x80 + r / 64 % 64, 0x80 + r % 64]

/-- The bytes of a string constant of the source (UTF-8, as Go stores it). -/
def str (s : String) : Bytes := s.data.flatMap (fun c => encodeRune c.toNat)

/-- Size in bytes of the sequence a leading byte announces (table `first`). -/
def seqSize (s0 : Nat) : Nat := if s0 < 0xE0 then 2 else if s0 < 0xF0 then 3 else 4

/-- Lowest second byte accepted after the leading byte (table `acceptRanges`). -/
def acceptLo (s0 : Nat) : Nat := if s0 = 0xE0 then 0xA0 else if s0 = 0xF0 then 0x90 else 0x80

/-- Highest second byte accepted after the leading byte (table `acceptRanges`). -/
def acceptHi (s0 : Nat) : Nat := if s0 = 0xED then 0x9F else if s0 = 0xF4 then 0x8F else 0xBF

/-- The step of `utf8.DecodeRuneInString` that reads the fourth byte. -/
def decodeFourth (s0 s1 s2 : Nat) (t2 : Bytes) : Nat × Nat :=
  match t2 with
  | [] => (runeError, 1)
  | s3 :: _ =>
    if s3 < 0x80 ∨ 0xBF < s3 then (runeError, 1)
    else (s0 % 8 * 262144 + s1 % 64 * 4096 + s2 % 64 * 64 + s3 % 64, 4)

/-- The step of `utf8.DecodeRuneInString` that reads the third byte. -/
def decodeThird (s0 s1 : Nat) (t1 : Bytes) : Nat × Nat :=
  match t1 with
  | [] => (runeError, 1)
  | s2 :: t2 =>
    if s2 < 0x80 ∨ 0xBF < s2 then (runeError, 1)
    else if seqSize s0 ≤ 3 then (s0 % 16 * 4096 + s1 % 64 * 64 + s2 % 64, 3)
    else decodeFourth s0 s1 s2 t2

/-- The step of `utf8.DecodeRuneInString` that reads the second byte. -/
def decodeSecond (s0 : Nat) (t : Bytes) : Nat × Nat :=
  match t with
  | [] => (runeError, 1)
  | s1 :: t1 =>
    if s1 < acceptLo s0 ∨ acceptHi s0 < s1 then (runeError, 1)
    else if seqSize s0 ≤ 2 then (s0 % 32 * 64 + s1 % 64, 2)
    else decodeThird s0 s1 t1

/-- The rune at the front of `s` and its width, as `utf8.DecodeRuneInString`:
`(RuneError, 0)` on the empty string, `(RuneError, 1)` on an invalid byte. -/
def decodeRune (s : Bytes) : Nat × Nat :=
  match s with
  | [] => (runeError, 0)
  | s0 :: t =>
    if s0 < 0x80 then (s0, 1)
    else if s0 < 0xC2 ∨ 0xF4 < s0 then (runeError, 1)
    else if t.length + 1 < seqSize s0 then (runeError, 1)
    else decodeSecond s0 t

/-- Whether a byte can start a rune (`utf8.RuneStart`): not a continuation byte. -/
def runeStart (b : Nat) : Bool := !(decide (0x80 ≤ b) && decide (b ≤ 0xBF))

/-- The backward search of `utf8.DecodeLastRuneInString`: step `start` down
while it is at least `lim` and the byte there starts no rune. -/
def backScan (s : Bytes) (lim : Int) : Nat → Int → Int
  | 0, start => start
  | n + 1, start =>
    if lim ≤ start then
      if runeStart (s.getD start.toNat 0) then start else backScan s lim n (start - 1)
    else start

/-- The rune at the end of `s` and its width, as `utf8.DecodeLastRuneInString`. -/
def decodeLastRune (s : Bytes) : Nat × Nat :=
  if s.length = 0 then (runeError, 0)
  else if s.getD (s.length - 1) 0 < 0x80 then (s.getD (s.length - 1) 0, 1)
  else
    let found := backScan s ((s.length : Int) - 4) 4 ((s.length : Int) - 2)
    let start := if found < 0 then 0 else found.toNat
    let d := decodeRune (s.drop start)
    if start + d.2 ≠ s.length then (runeError, 1) else d

/-! ## `unicode` and `strings` -/

/-- White space as `unicode.IsSpace` defines it. -/
def isSpace (r : Nat) : Bool :=
  if r ≤ 0xFF then
    decide (r = 9 ∨ r = 10 ∨ r = 11 ∨ r = 12 ∨ r = 13 ∨ r = 32 ∨ r = 0x85 ∨ r = 0xA0)
  else
    decide (r = 0x1680 ∨ (0x2000 ≤ r ∧ r ≤ 0x200A) ∨ r = 0x2028 ∨ r = 0x2029 ∨
      r = 0x202F ∨ r = 0x205F ∨ r = 0x3000)

/-- Drop leading white-space runes; the fuel bounds the number of runes. -/
def trimLeftFuel : Nat → Bytes → Bytes
  | 0, s => s
  | n + 1, s =>
    match s with
    | [] => []
    | _ :: _ =>
      if isSpace (decodeRune s).1 then trimLeftFuel n (s.drop (decodeRune s).2) else s

/-- Drop trailing white-space runes; the fuel bounds the number of runes. -/
def trimRightFuel : Nat → Bytes → Bytes
  | 0, s => s
  | n + 1, s =>
    match s with
    | [] => []
    | _ :: _ =>
      if isSpace (decodeLastRune s).1 then
        trimRightFuel n (s.take (s.length - (decodeLastRune s).2))
      else s

/-- Leading white space removed (`strings.TrimLeftFunc(s, unicode.IsSpace)`). -/
def trimLeft (s : Bytes) : Bytes := trimLeftFuel s.length s

/-- Trailing white space removed (`strings.TrimRightFunc(s, unicode.IsSpace)`). -/
def trimRight (s : Bytes) : Bytes := trimRightFuel s.length s

/-- Leading and trailing white space removed (`strings.TrimSpace`). -/
def TrimSpace (s : Bytes) : Bytes := trimRight (trimLeft s)

/-- Whether `s` begins with `p` (`strings.HasPrefix`). -/
def HasPrefix (s p : Bytes) : Bool := p.isPrefixOf s

/-- Index of the first occurrence of the byte `sep` in `s`. -/
def indexByte : Bytes → Nat → Option Nat
  | [], _ => none
  | b :: bs, sep => if b = sep then some 0 else (indexByte bs sep).map (· + 1)

/-- The text before and after the first `sep`, and whether `sep` occurs
(`strings.Cut` with a one-byte separator). -/
def Cut (s : Bytes) (sep : Nat) : Bytes × Bytes × Bool :=
  match indexByte s sep with
  | some i => (s.take i, s.drop (i + 1), true)
  | none => (s, [], false)

/-! ## `bufio.Scanner` with `ScanLines` -/

/-- The default token limit `bufio.MaxScanTokenSize`. -/
def maxScanTokenSize : Nat := 64 * 1024

/-- Message of `bufio.ErrTooLong`. -/
def errTooLong : Bytes := str "bufio.Scanner: token too long"

/-- Remove one trailing carriage return (`dropCR` of `bufio`). -/
def dropCR (data : Bytes) : Bytes :=
  if data.getLast? = some 13 then data.dropLast else data

/-- The tokens `Scanner.Scan` delivers for the remaining input, `cur` being
the bytes of the current line read so far, and whether scanning stopped on a
line that does not fit the buffer (a line of `maxScanTokenSize` bytes or more,
its terminator not counted).  A final line without newline is a token unless
it is empty. -/
def scanFrom (cur : Bytes) : Bytes → List Bytes × Bool
  | [] =>
    if cur = [] then ([], false)
    else if maxScanTokenSize ≤ cur.length then ([], true)
    else ([dropCR cur], false)
  | b :: bs =>
    if b = 10 then
      if maxScanTokenSize ≤ cur.length then ([], true)
      else ((dropCR cur) :: (scanFrom [] bs).1, (scanFrom [] bs).2)
    else scanFrom (cur ++ [b]) bs

/-- All tokens of a file content and the too-long flag. -/
def scanLines (content : Bytes) : List Bytes × Bool := scanFrom [] content

/-! ## `os`: environment and files -/

/-- The process environment: the value of each variable that is set. -/
abbrev Env := Bytes → Option Bytes

/-- Value of a variable, empty when it is not set or the key is empty
(`os.Getenv`). -/
def Getenv (env : Env) (key : Bytes) : Bytes :=
  if key = [] then [] else (env key).getD []

/-- Whether `syscall.Setenv` accepts the pair (it returns `EINVAL` otherwise):
the key is not empty and has no `=` and no NUL byte, the value has no NUL
byte. -/
def setenvValid (key value : Bytes) : Bool :=
  decide (key ≠ []) && !(key.contains 61) && !(key.contains 0) && !(value.contains 0)

/-- The environment after `os.Setenv(key, value)`, and whether it succeeded;
a rejected pair leaves the environment as it is.  `loadDotEnv` does not look
at the error. -/
def Setenv (env : Env) (key value : Bytes) : Env × Bool :=
  if setenvValid key value then
    (fun k => if k = key then some value else env k, true)
  else (env, false)

/-- What `os.Open` and the reads that follow deliver for a file name: no such
file, another error of `os.Open`, or the bytes read, with the error that ended
the reading when it was not the end of the file. -/
inductive OpenResult where
  | notExist
  | failed (err : Bytes)
  | opened (content : Bytes) (readErr : Option Bytes)

/-! ## `env.go` -/

/-- The quote stripping of `loadDotEnv` (lines 45-49). -/
def stripQuotes (value : Bytes) : Bytes :=
  if 2 ≤ value.length ∧
      ((value.getD 0 0 = 34 ∧ value.getD (value.length - 1) 0 = 34) ∨
       (value.getD 0 0 = 39 ∧ value.getD (value.length - 1) 0 = 39)) then
    (value.take (value.length - 1)).drop 1
  else value

/-- The key and value one scanned line assigns, `none` for a line the loop
skips (lines 28-49 of `loadDotEnv`). -/
def parseLine (text : Bytes) : Option (Bytes × Bytes) :=
  let line := TrimSpace text
  if line = [] ∨ HasPrefix line (str "#") = true then none
  else
    match Cut line 61 with
    | (key, value, found) =>
      if found = false then none
      else some (TrimSpace key, stripQuotes (TrimSpace value))

/-- One iteration of the loop of `loadDotEnv`. -/
def loopBody (env : Env) (text : Bytes) : Env :=
  match parseLine text with
  | none => env
  | some (key, value) =>
    if Getenv env key = [] then (Setenv env key value).1 else env

/-- The function `loadDotEnv`: the environment afterwards and the error it
returns (`none` for nil).  `fs` tells what opening and reading a file gives. -/
def loadDotEnv (fs : Bytes → OpenResult) (filename : Bytes) (env : Env) :
    Env × Option Bytes :=
  match fs filename with
  | OpenResult.notExist => (env, none)
  | OpenResult.failed err => (env, some err)
  | OpenResult.opened content readErr =>
    ((scanLines content).1.foldl loopBody env,
      if (scanLines content).2 = true then some errTooLong else readErr)

/-! ## `net/url`, `strconv` and `fmt` -/

/-- Upper-case hexadecimal digit (`upperhex` of `net/url`). -/
def upperHex (d : Nat) : Nat := if d < 10 then 48 + d else 55 + d

/-- Lower-case hexadecimal digit (`lowerhex` of `strconv`). -/
def lowerHex (d : Nat) : Nat := if d < 10 then 48 + d else 87 + d

/-- Bytes `url.QueryEscape` leaves as they are: letters, digits and `-_.~`. -/
def unreserved (c : Nat) : Bool :=
  decide ((97 ≤ c ∧ c ≤ 122) ∨ (65 ≤ c ∧ c ≤ 90) ∨ (48 ≤ c ∧ c ≤ 57) ∨
    c = 45 ∨ c = 95 ∨ c = 46 ∨ c = 126)

/-- The function `url.QueryEscape`: a space becomes `+`, every other byte
that is not unreserved becomes `%XX`. -/
def QueryEscape (s : Bytes) : Bytes :=
  s.flatMap (fun c =>
    if unreserved c = true then [c]
    else if c = 32 then [43]
    else [37, upperHex (c / 16 % 16), upperHex (c % 16)])

/-- The method `url.Values.Encode` on a list of single-valued parameters that
is already sorted by key. -/
def encodeValues : List (Bytes × Bytes) → Bytes
  | [] => []
  | [(k, v)] => QueryEscape k ++ 61 :: QueryEscape v
  | (k, v) :: rest => QueryEscape k ++ 61 :: QueryEscape v ++ 38 :: encodeValues rest

/-- Printable runes as `strconv.IsPrint`: Latin-1 is decided in the code, the
tables for wider runes are the input `wide`. -/
def isPrint (wide : Nat → Bool) (r : Nat) : Bool :=
  if r ≤ 0xFF then
    decide ((0x20 ≤ r ∧ r ≤ 0x7E) ∨ (0xA1 ≤ r ∧ r ≤ 0xFF ∧ r ≠ 0xAD))
  else wide r

/-- Escape of one rune inside double quotes (`appendEscapedRune`). -/
def escapeRune (wide : Nat → Bool) (r : Nat) : Bytes :=
  if r = 34 ∨ r = 92 then [92, r]
  else if isPrint wide r = true then encodeRune r
  else if r = 7 then [92, 97]
  else if r = 8 then [92, 98]
  else if r = 12 then [92, 102]
  else if r = 10 then [92, 110]
  else if r = 13 then [92, 114]
  else if r = 9 then [92, 116]
  else if r = 11 then [92, 118]
  else if r < 32 ∨ r = 0x7F then [92, 120, lowerHex (r / 16 % 16), lowerHex (r % 16)]
  else if r < 0x10000 then
    [92, 117, lowerHex (r / 4096 % 16), lowerHex (r / 256 % 16), lowerHex (r / 16 % 16),
      lowerHex (r % 16)]
  else
    [92, 85, lowerHex (r / 268435456 % 16), lowerHex (r / 16777216 % 16),
      lowerHex (r / 1048576 % 16), lowerHex (r / 65536 % 16), lowerHex (r / 4096 % 16),
      lowerHex (r / 256 % 16), lowerHex (r / 16 % 16), lowerHex (r % 16)]

/-- The body of a quoted string, rune by rune (`appendQuotedWith`); an
invalid byte becomes `\xNN`.  The fuel bounds the number of runes. -/
def quoteBody (wide : Nat → Bool) : Nat → Bytes → Bytes
  | 0, _ => []
  | n + 1, s =>
    match s with
    | [] => []
    | s0 :: _ =>
      if (decodeRune s).2 = 1 ∧ (decodeRune s).1 = runeError then
        [92, 120, lowerHex (s0 / 16 % 16), lowerHex (s0 % 16)] ++
          quoteBody wide n (s.drop 1)
      else
        escapeRune wide (decodeRune s).1 ++ quoteBody wide n (s.drop (decodeRune s).2)

/-- The verb `%q` on a string (`strconv.Quote`). -/
def quote (wide : Nat → Bool) (s : Bytes) : Bytes :=
  34 :: quoteBody wide s.length s ++ [34]

/-- Decimal digits of a natural number, most significant first. -/
def digitsFuel : Nat → Nat → Bytes → Bytes
  | 0, _, acc => acc
  | f + 1, n, acc =>
    if n < 10 then (48 + n) :: acc else digitsFuel f (n / 10) ((48 + n % 10) :: acc)

/-- The verb `%d` on an `int`. -/
def fmtInt (i : Int) : Bytes :=
  if i < 0 then 45 :: digitsFuel (i.natAbs + 1) i.natAbs []
  else digitsFuel (i.natAbs + 1) i.natAbs []

/-! ## `weather.go` -/

/-- A `float64`, kept as its bit pattern: the program only stores and prints it. -/
structure Float64 where
  bits : Nat

/-- A value decoded into `interface{}` by `encoding/json`. -/
inductive JSONValue where
  | null
  | bool (b : Bool)
  | number (f : Float64)
  | string (s : Bytes)
  | array (items : List JSONValue)
  | object (fields : List (Bytes × JSONValue))

/-- The struct `weatherDesc`. -/
structure weatherDesc where
  Description : Bytes

/-- The struct `mainMetrics`. -/
structure mainMetrics where
  Temp : Float64
  FeelsLike : Float64
  Humidity : Int

/-- The struct `wind`. -/
structure wind where
  Speed : Float64

/-- The struct `WeatherResponse`. -/
structure WeatherResponse where
  Name : Bytes
  Main : mainMetrics
  Weather : List weatherDesc
  Wind : wind
  Cod : JSONValue
  Message : Bytes

/-- Outcome of decoding the response body as JSON. -/
inductive DecodeResult where
  | failed (err : Bytes)
  | decoded (weather : WeatherResponse)

/-- Outcome of `http.Get`: a transport error, or the status code, the status
text (`resp.Status`) and the decoding of the body. -/
inductive HttpResult where
  | failed (err : Bytes)
  | response (statusCode : Int) (status : Bytes) (body : DecodeResult)

/-- Everything outside the program that its run depends on. -/
structure Runtime where
  fs : Bytes → OpenResult
  httpGet : Bytes → HttpResult
  wide : Nat → Bool
  now : Bytes
  fmtFloat1 : Float64 → Bytes

/-- The constant `baseURL`. -/
def baseURL : Bytes := str "https://api.openweathermap.org/data/2.5/weather"

/-- The URL `FetchWeather` requests (lines 51-57). -/
def requestURL (city apiKey : Bytes) : Bytes :=
  baseURL ++ str "?" ++
    encodeValues [(str "appid", apiKey), (str "lang", str "en"), (str "q", city),
      (str "units", str "metric")]

/-- The function `FetchWeather`: the record, or the text of the error. -/
def FetchWeather (rt : Runtime) (city apiKey : Bytes) : Except Bytes WeatherResponse :=
  match rt.httpGet (requestURL city apiKey) with
  | HttpResult.failed err => Except.error (str "network error: " ++ err)
  | HttpResult.response statusCode status body =>
    match body with
    | DecodeResult.failed err => Except.error (str "failed to parse API response: " ++ err)
    | DecodeResult.decoded weather =>
      if statusCode ≠ 200 then
        if weather.Message ≠ [] then Except.error (str "API error: " ++ weather.Message)
        else Except.error (str "API returned unexpected status: " ++ status)
      else if weather.Weather.length = 0 then
        Except.error (str "API returned no weather data for " ++ quote rt.wide city)
      else Except.ok weather

/-- The description `Display` prints (lines 92-95): the first byte minus 32
as a byte, converted to a string as a rune, then the rest of the bytes. -/
def capitalise (description : Bytes) : Bytes :=
  if 0 < description.length then
    encodeRune ((description.getD 0 0 + 256 - 32) % 256) ++ description.drop 1
  else description

/-- The function `Display`: the seven writes to standard output, or `none`
when `w.Weather[0]` is out of range. -/
def Display (rt : Runtime) (w : WeatherResponse) : Option (List Bytes) :=
  match w.Weather with
  | [] => none
  | first :: _ =>
    some [
      str "City:        " ++ w.Name ++ str "\n",
      str "Time:        " ++ rt.now ++ str "\n",
      str "Temperature: " ++ rt.fmtFloat1 w.Main.Temp ++ str "°C\n",
      str "Feels like:  " ++ rt.fmtFloat1 w.Main.FeelsLike ++ str "°C\n",
      str "Weather:     " ++ capitalise first.Description ++ str "\n",
      str "Humidity:    " ++ fmtInt w.Main.Humidity ++ str "%\n",
      str "Wind speed:  " ++ rt.fmtFloat1 w.Wind.Speed ++ str " m/s\n"]

/-! ## `main.go` -/

/-- The constant `defaultCity`. -/
def defaultCity : Bytes := str "London"

/-- What a run does that can be observed from outside. -/
inductive Event where
  | stderr (text : Bytes)
  | stdout (text : Bytes)
  | fetch (city apiKey : Bytes)
  | exit (code : Nat)
  | indexOutOfRange

/-- The help `main` writes when the key is missing (lines 32-35). -/
def helpText : List Event :=
  [Event.stderr (str "Error: WEATHER_API_KEY is not set.\n"),
   Event.stderr (str "Add it to the .env file in the project directory:\n"),
   Event.stderr (str "  WEATHER_API_KEY=your_api_key_here\n"),
   Event.stderr (str "Get a free key at https://openweathermap.org/api\n")]

/-- The warning `main` writes when `loadDotEnv` returns an error. -/
def warning : Option Bytes → List Event
  | none => []
  | some err => [Event.stderr (str "Warning: could not read .env file: " ++ err ++ str "\n")]

/-- The function `main`: the events of a run started with environment `env`
and `os.Args = args`, in order. -/
def main (rt : Runtime) (env : Env) (args : List Bytes) : List Event :=
  let loaded := loadDotEnv rt.fs (str ".env") env
  let apiKey := Getenv loaded.1 (str "WEATHER_API_KEY")
  if apiKey = [] then warning loaded.2 ++ helpText ++ [Event.exit 1]
  else
    let city := if 1 < args.length then args.getD 1 [] else defaultCity
    warning loaded.2 ++ Event.fetch city apiKey ::
      match FetchWeather rt city apiKey with
      | Except.error err => [Event.stderr (str "Error: " ++ err ++ str "\n"), Event.exit 1]
      | Except.ok weather =>
        match Display rt weather with
        | none => [Event.indexOutOfRange]
        | some out => out.map Event.stdout ++ [Event.exit 0]

/-! ## Text files, single variables and the wording of the specification -/

/-- The content of the text file with the given lines, joined by newlines; a
file that ends in a newline has an empty last line. -/
def joinLines : List Bytes → Bytes
  | [] => []
  | [l] => l
  | l :: l2 :: ls => l ++ 10 :: joinLines (l2 :: ls)

/-- A file system in which every name opens the given content. -/
def fileWith (content : Bytes) (readErr : Option Bytes) : Bytes → OpenResult :=
  fun _ => OpenResult.opened content readErr

/-- The loop of `loadDotEnv` over the text lines of a file: the environment it
reaches, and whether it stopped at a line too long for the scanner. -/
def runText (env : Env) : List Bytes → Env × Bool
  | [] => (env, false)
  | l :: ls =>
    if maxScanTokenSize ≤ l.length then (env, true) else runText (loopBody env l) ls

/-- The value a line gives the variable `k`: the line assigns `k` and
`os.Setenv` accepts the pair. -/
def assigned (k : Bytes) (text : Bytes) : Option Bytes :=
  match parseLine text with
  | none => none
  | some (key, value) =>
    if key = k ∧ setenvValid key value = true then some value else none

/-- The effect of a line on the value of one variable: an assignment takes
effect when the variable is unset or empty. -/
def stepVal (o : Option Bytes) (cur : Option Bytes) : Option Bytes :=
  match o with
  | none => cur
  | some v => if cur.getD [] = [] then some v else cur

/-- A line that is blank, a comment, or without `=`. -/
def Skipped (x : Bytes) : Prop :=
  TrimSpace x = [] ∨ HasPrefix (TrimSpace x) (str "#") = true ∨ 61 ∉ x

instance decidableSkipped (x : Bytes) : Decidable (Skipped x) := by
  unfold Skipped
  infer_instance

/-- The quote stripping as the specification words it: when the value has at
least two characters and begins and ends with the same quote character, both
`"` or both `'`, the first and the last character are removed; otherwise the
value is unchanged. -/
def stripSpec (v : Bytes) : Bytes :=
  if 2 ≤ v.length ∧
      ((v.head? = some 34 ∧ v.getLast? = some 34) ∨
       (v.head? = some 39 ∧ v.getLast? = some 39)) then
    v.tail.dropLast
  else v

/-- The file with lines `pre`, `l`, `post` has `l`, which reads `K=V`, as its
only line that is no comment and assigns the non-empty key `k`, the trimmed
`K`. -/
structure OnlyAssignment (pre post : List Bytes) (l K V k : Bytes) : Prop where
  newlineFree : ∀ x ∈ pre ++ l :: post, 10 ∉ x
  line : TrimSpace l = K ++ 61 :: V
  key : 61 ∉ K
  notComment : HasPrefix (TrimSpace l) (str "#") = false
  trimmed : TrimSpace K = k
  nonEmpty : k ≠ []
  others : ∀ x ∈ pre ++ post, ∀ kv, parseLine x = some kv → kv.1 ≠ k

/-- Bytes that `%q` copies unchanged: printable ASCII except `"` and `\`. -/
def plainByte (b : Nat) : Bool := decide (0x20 ≤ b ∧ b ≤ 0x7E ∧ b ≠ 34 ∧ b ≠ 92)

/-- The city `main` asks for: the first command-line argument when there is
one, `London` otherwise. -/
def cityOf : List Bytes → Bytes
  | _ :: city :: _ => city
  | _ => str "London"

/-! ## Sample inputs -/

/-- A decoded payload with one condition. -/
def sampleBody : WeatherResponse :=
  { Name := str "London",
    Main := { Temp := ⟨0x4035800000000000⟩, FeelsLike := ⟨0x4034E66666666666⟩, Humidity := 40 },
    Weather := [{ Description := str "clear sky" }],
    Wind := { Speed := ⟨0x400999999999999A⟩ },
    Cod := JSONValue.number ⟨0x4069000000000000⟩,
    Message := [] }

/-- A decoded payload without any condition and without a message. -/
def emptyBody : WeatherResponse :=
  { Name := [],
    Main := { Temp := ⟨0⟩, FeelsLike := ⟨0⟩, Humidity := 0 },
    Weather := [],
    Wind := { Speed := ⟨0⟩ },
    Cod := JSONValue.null,
    Message := [] }

/-- A decoded error payload: no condition, a message. -/
def errorBody : WeatherResponse :=
  { emptyBody with Cod := JSONValue.string (str "404"), Message := str "city not found" }

/-- A runtime whose `.env` file has the given content and whose server answers
every request with the given status and payload. -/
def constRuntime (dotenv : OpenResult) (statusCode : Int) (status : Bytes)
    (body : WeatherResponse) : Runtime :=
  { fs := fun _ => dotenv,
    httpGet := fun _ => HttpResult.response statusCode status (DecodeResult.decoded body),
    wide := fun _ => true,
    now := str "01 Nov 2026, 12:00",
    fmtFloat1 := fun _ => str "0.0" }

/-- The environment in which no variable is set. -/
def emptyEnv : Env := fun _ => none

/-- A city with a double quote, which `%q` escapes. -/
def quotedCity : Bytes := str "a\"b"

/-- An environment in which `FOO` is set to the empty string. -/
def emptyFooEnv : Env := fun k => if k = str "FOO" then some [] else none

/-- A line of 65536 letters `x`. -/
def longLine : Bytes := List.replicate 65536 120

/-! ## `weather.go`: theorems -/

/-- C4: when the body was decoded, `FetchWeather` returns a record exactly when
the status code is 200 and the condition list is not empty, it returns an
error in every other case, and a returned record is the decoded payload
itself, so its name, temperature, feels-like temperature, humidity, wind speed
and first description are the payload's. -/
theorem FetchWeather_record_iff (rt : Runtime) (city apiKey : Bytes)
    (statusCode : Int) (status : Bytes) (body : WeatherResponse)
    (h : rt.httpGet (requestURL city apiKey) =
      HttpResult.response statusCode status (DecodeResult.decoded body)) :
    ((∃ r, FetchWeather rt city apiKey = Except.ok r) ↔
        (statusCode = 200 ∧ body.Weather ≠ [])) ∧
    (¬ (statusCode = 200 ∧ body.Weather ≠ []) →
        ∃ e, FetchWeather rt city apiKey = Except.error e) ∧
    (∀ r, FetchWeather rt city apiKey = Except.ok r →
        r = body ∧ r.Name = body.Name ∧ r.Main.Temp = body.Main.Temp ∧
        r.Main.FeelsLike = body.Main.FeelsLike ∧ r.Main.Humidity = body.Main.Humidity ∧
        r.Wind.Speed = body.Wind.Speed ∧
        r.Weather.head?.map weatherDesc.Description =
          body.Weather.head?.map weatherDesc.Description) := by
  unfold FetchWeather
  rw [h]
  by_cases hs : statusCode = 200
  · by_cases hw : body.Weather = []
    · simp [hs, hw]
    · simp [hs, hw]
  · by_cases hm : body.Message = []
    · simp [hs, hm]
    · simp [hs, hm]

/-- C4 at a sample response: on status 200 with one condition the result is a
record, and it is the decoded payload. -/
theorem FetchWeather_record_iff_witness :
    ∃ r, FetchWeather (constRuntime OpenResult.notExist 200 (str "200 OK") sampleBody)
        (str "London") (str "key") = Except.ok r ∧ r = sampleBody :=
  have h := FetchWeather_record_iff
    (constRuntime OpenResult.notExist 200 (str "200 OK") sampleBody)
    (str "London") (str "key") 200 (str "200 OK") sampleBody rfl
  (h.1.mpr ⟨rfl, List.cons_ne_nil _ _⟩).elim (fun r hr => ⟨r, hr, (h.2.2 r hr).1⟩)

/-- C5: on a status code other than 200 with a decoded body, `FetchWeather`
fails with `API error: ` and the message field when that field is not empty,
and with `API returned unexpected status: ` and the status text when it is
empty, whatever the condition list holds. -/
theorem FetchWeather_non_ok (rt : Runtime) (city apiKey : Bytes)
    (statusCode : Int) (status : Bytes) (body : WeatherResponse)
    (h : rt.httpGet (requestURL city apiKey) =
      HttpResult.response statusCode status (DecodeResult.decoded body))
    (hs : statusCode ≠ 200) :
    (body.Message ≠ [] →
      FetchWeather rt city apiKey = Except.error (str "API error: " ++ body.Message)) ∧
    (body.Message = [] →
      FetchWeather rt city apiKey =
        Except.error (str "API returned unexpected status: " ++ status)) := by
  unfold FetchWeather
  rw [h]
  constructor
  · intro hm
    simp [hs, hm]
  · intro hm
    simp [hs, hm]

/-- C5 at two sample responses: status 404 with the message `city not found`,
and status 500 with an empty message. -/
theorem FetchWeather_non_ok_witness :
    FetchWeather (constRuntime OpenResult.notExist 404 (str "404 Not Found") errorBody)
        (str "Atlantis") (str "key") = Except.error (str "API error: city not found") ∧
    FetchWeather (constRuntime OpenResult.notExist 500 (str "500 Internal Server Error")
        emptyBody) (str "London") (str "key") =
      Except.error (str "API returned unexpected status: 500 Internal Server Error") :=
  ⟨(FetchWeather_non_ok
      (constRuntime OpenResult.notExist 404 (str "404 Not Found") errorBody)
      (str "Atlantis") (str "key") 404 (str "404 Not Found") errorBody rfl (by decide)).1
      (by decide),
    (FetchWeather_non_ok
      (constRuntime OpenResult.notExist 500 (str "500 Internal Server Error") emptyBody)
      (str "London") (str "key") 500 (str "500 Internal Server Error") emptyBody rfl
      (by decide)).2 rfl⟩

theorem escapeRune_plain (wide : Nat → Bool) (b : Nat) (h : plainByte b = true) :
    escapeRune wide b = [b] := by
  simp only [plainByte, decide_eq_true_eq] at h
  obtain ⟨h1, h2, h3, h4⟩ := h
  have hp : isPrint wide b = true := by
    unfold isPrint
    rw [if_pos (by omega)]
    simp only [decide_eq_true_eq]
    left
    exact ⟨h1, h2⟩
  unfold escapeRune
  rw [if_neg (by omega), if_pos hp]
  unfold encodeRune
  rw [if_pos (by omega)]

theorem quoteBody_plain (wide : Nat → Bool) (n : Nat) (s : Bytes)
    (hn : s.length ≤ n) (h : ∀ b ∈ s, plainByte b = true) :
    quoteBody wide n s = s := by
  induction n generalizing s with
  | zero =>
    have : s = [] := List.eq_nil_of_length_eq_zero (by omega)
    subst this
    rfl
  | succ n ih =>
    cases s with
    | nil => rfl
    | cons b t =>
      have hb : plainByte b = true := h b (List.mem_cons_self b t)
      have hb2 := hb
      simp only [plainByte, decide_eq_true_eq] at hb2
      have hd : decodeRune (b :: t) = (b, 1) := by
        unfold decodeRune
        simp only []
        rw [if_pos (by omega)]
      have hne : ¬ (b = runeError) := by
        unfold runeError
        omega
      simp only [quoteBody, hd, hne, and_false, if_false, List.drop_succ_cons, List.drop_zero]
      rw [escapeRune_plain wide b hb, ih t (by simpa using hn)
        (fun c hc => h c (List.mem_cons_of_mem b hc))]
      rfl

/-- C6 as stated fails: for the city `a"b`, status 200 and an empty condition
list, the error text is `API returned no weather data for "a\"b"`, which does
not contain the city as a substring. -/
theorem FetchWeather_city_not_verbatim :
    FetchWeather (constRuntime OpenResult.notExist 200 (str "200 OK") emptyBody) quotedCity
        (str "key") =
      Except.error (str "API returned no weather data for \"a\\\"b\"") ∧
    ¬ (quotedCity <:+: str "API returned no weather data for \"a\\\"b\"") := by
  constructor
  · rfl
  · decide

/-- C6, amended: on status 200 with an empty condition list `FetchWeather`
fails with `API returned no weather data for ` followed by the city in the
double-quoted form of `%q`; when the city has only printable ASCII characters
other than `"` and `\`, that form is the city between two quotes, so the
message contains the city as a substring. -/
theorem FetchWeather_no_data (rt : Runtime) (city apiKey status : Bytes)
    (body : WeatherResponse)
    (h : rt.httpGet (requestURL city apiKey) =
      HttpResult.response 200 status (DecodeResult.decoded body))
    (hw : body.Weather = []) :
    FetchWeather rt city apiKey =
      Except.error (str "API returned no weather data for " ++ quote rt.wide city) ∧
    ((∀ b ∈ city, plainByte b = true) →
      quote rt.wide city = 34 :: city ++ [34] ∧
      city <:+: str "API returned no weather data for " ++ quote rt.wide city) := by
  constructor
  · unfold FetchWeather
    rw [h]
    simp [hw]
  · intro hp
    have hq : quote rt.wide city = 34 :: city ++ [34] := by
      unfold quote
      rw [quoteBody_plain rt.wide city.length city (le_refl _) hp]
    refine ⟨hq, ?_⟩
    rw [hq]
    exact ⟨str "API returned no weather data for " ++ [34], [34], by simp⟩

/-- C6, amended, at a sample response: for the city `London` the message is
`API returned no weather data for "London"` and contains `London`. -/
theorem FetchWeather_no_data_witness :
    FetchWeather (constRuntime OpenResult.notExist 200 (str "200 OK") emptyBody) (str "London")
        (str "key") =
      Except.error (str "API returned no weather data for \"London\"") ∧
    str "London" <:+: str "API returned no weather data for \"London\"" :=
  have h := FetchWeather_no_data (constRuntime OpenResult.notExist 200 (str "200 OK") emptyBody)
    (str "London") (str "key") (str "200 OK") emptyBody rfl rfl
  ⟨h.1, (h.2 (by decide)).2⟩

/-- C7: the code subtracts 32 from the first byte whatever it is, so a
description that already starts with a capital is not printed unchanged:
`Clear sky` is printed as `#lear sky`. -/
theorem Display_capital_first_byte (rt : Runtime) (name : Bytes) (m : mainMetrics)
    (rest : List weatherDesc) (w : wind) (cod : JSONValue) (message : Bytes) :
    (Display rt ⟨name, m, ⟨str "Clear sky"⟩ :: rest, w, cod, message⟩).map
        (fun out => out.getD 4 []) =
      some (str "Weather:     #lear sky\n") := by
  simp only [Display, Option.map_some', List.getD_cons_succ, List.getD_cons_zero]
  decide

/-- On a lower-case first letter `Display` does capitalise: the letter becomes
its upper-case form and the rest stays. -/
theorem capitalise_lower (c : Nat) (t : Bytes) (h1 : 97 ≤ c) (h2 : c ≤ 122) :
    capitalise (c :: t) = (c - 32) :: t := by
  unfold capitalise
  have h3 : (c + 256 - 32) % 256 = c - 32 := by omega
  simp only [List.length_cons, Nat.zero_lt_succ, if_true, List.getD_cons_zero, h3,
    List.drop_succ_cons, List.drop_zero]
  unfold encodeRune
  rw [if_pos (by omega)]
  rfl

/-- The description of the spec's example: `clear sky` is printed `Clear sky`. -/
theorem capitalise_clear_sky : capitalise (str "clear sky") = str "Clear sky" := by
  decide

/-- C10: a record that `FetchWeather` returns has at least one condition, so
`Display` reads `w.Weather[0]` in range and produces its output. -/
theorem Display_in_range (rt : Runtime) (city apiKey : Bytes) (r : WeatherResponse)
    (h : FetchWeather rt city apiKey = Except.ok r) :
    r.Weather ≠ [] ∧ 1 ≤ r.Weather.length ∧ (Display rt r).isSome = true := by
  have hne : r.Weather ≠ [] := by
    unfold FetchWeather at h
    split at h
    · cases h
    · split at h
      · cases h
      · split at h
        · split at h <;> cases h
        · split at h
          · cases h
          · rename_i hw
            cases h
            intro hnil
            apply hw
            rw [hnil]
            rfl
  refine ⟨hne, ?_, ?_⟩
  · cases hw : r.Weather with
    | nil => exact absurd hw hne
    | cons a t => simp
  · unfold Display
    cases hw : r.Weather with
    | nil => exact absurd hw hne
    | cons a t => rfl

/-- C10 at a sample response. -/
theorem Display_in_range_witness :
    sampleBody.Weather ≠ [] ∧ 1 ≤ sampleBody.Weather.length ∧
      (Display (constRuntime OpenResult.notExist 200 (str "200 OK") sampleBody)
        sampleBody).isSome = true :=
  Display_in_range (constRuntime OpenResult.notExist 200 (str "200 OK") sampleBody)
    (str "London") (str "key") sampleBody rfl

/-! ## `main.go`: theorems -/

theorem city_eq (args : List Bytes) :
    (if 1 < args.length then args.getD 1 [] else defaultCity) = cityOf args := by
  match args with
  | [] => rfl
  | [_] => rfl
  | _ :: c :: _ => simp [cityOf]

theorem fetch_not_mem_warning (e : Option Bytes) (c k : Bytes) :
    Event.fetch c k ∉ warning e := by
  cases e <;> simp [warning]

theorem stdout_not_mem_warning (e : Option Bytes) (t : Bytes) :
    Event.stdout t ∉ warning e := by
  cases e <;> simp [warning]

/-- C8: when `WEATHER_API_KEY` is unset or empty after `.env` was loaded, the
run is: the warning `Warning: could not read .env file: ...` on standard error
when `loadDotEnv` returned an error, then the four help lines
`Error: WEATHER_API_KEY is not set.`,
`Add it to the .env file in the project directory:`,
`  WEATHER_API_KEY=your_api_key_here` and
`Get a free key at https://openweathermap.org/api` on standard error, then exit
status 1, with no call of `FetchWeather` and nothing on standard output; and
every call of `FetchWeather` carries the non-empty value of the variable as
key and the first argument, or `London` without one, as city. -/
theorem main_requires_key (rt : Runtime) (env : Env) (args : List Bytes) :
    (((loadDotEnv rt.fs (str ".env") env).1 (str "WEATHER_API_KEY") = none ∨
      (loadDotEnv rt.fs (str ".env") env).1 (str "WEATHER_API_KEY") = some []) →
        main rt env args =
          (match (loadDotEnv rt.fs (str ".env") env).2 with
            | none => []
            | some err =>
              [Event.stderr (str "Warning: could not read .env file: " ++ err ++ str "\n")]) ++
          [Event.stderr (str "Error: WEATHER_API_KEY is not set.\n"),
           Event.stderr (str "Add it to the .env file in the project directory:\n"),
           Event.stderr (str "  WEATHER_API_KEY=your_api_key_here\n"),
           Event.stderr (str "Get a free key at https://openweathermap.org/api\n"),
           Event.exit 1] ∧
        (∀ c k, Event.fetch c k ∉ main rt env args) ∧
        (∀ t, Event.stdout t ∉ main rt env args)) ∧
    (∀ c k, Event.fetch c k ∈ main rt env args →
        k ≠ [] ∧ (loadDotEnv rt.fs (str ".env") env).1 (str "WEATHER_API_KEY") = some k ∧
        c = cityOf args) := by
  have hkey : str "WEATHER_API_KEY" ≠ [] := by decide
  constructor
  · intro h
    have hg : Getenv (loadDotEnv rt.fs (str ".env") env).1 (str "WEATHER_API_KEY") = [] := by
      unfold Getenv
      rw [if_neg hkey]
      rcases h with h | h <;> rw [h] <;> rfl
    have hm : main rt env args =
        warning (loadDotEnv rt.fs (str ".env") env).2 ++ helpText ++ [Event.exit 1] := by
      unfold main
      simp only [hg, if_true]
    refine ⟨?_, ?_, ?_⟩
    · rw [hm]
      generalize (loadDotEnv rt.fs (str ".env") env).2 = e
      cases e <;> rfl
    · intro c k
      rw [hm]
      have := fetch_not_mem_warning (loadDotEnv rt.fs (str ".env") env).2 c k
      simp [helpText, this]
    · intro t
      rw [hm]
      have := stdout_not_mem_warning (loadDotEnv rt.fs (str ".env") env).2 t
      simp [helpText, this]
  · intro c k hmem
    by_cases hg : Getenv (loadDotEnv rt.fs (str ".env") env).1 (str "WEATHER_API_KEY") = []
    · exfalso
      have hm : main rt env args =
          warning (loadDotEnv rt.fs (str ".env") env).2 ++ helpText ++ [Event.exit 1] := by
        unfold main
        simp only [hg, if_true]
      rw [hm] at hmem
      have := fetch_not_mem_warning (loadDotEnv rt.fs (str ".env") env).2 c k
      simp [helpText, this] at hmem
    · unfold main at hmem
      simp only [hg, if_false, city_eq] at hmem
      have hw := fetch_not_mem_warning (loadDotEnv rt.fs (str ".env") env).2 c k
      rw [List.mem_append] at hmem
      rcases hmem with hmem | hmem
      · exact absurd hmem hw
      · rw [List.mem_cons] at hmem
        rcases hmem with hmem | hmem
        · injection hmem with hc hk
          refine ⟨by rw [hk]; exact hg, ?_, hc⟩
          rw [hk]
          unfold Getenv at hg ⊢
          rw [if_neg hkey] at hg ⊢
          cases hv : (loadDotEnv rt.fs (str ".env") env).1 (str "WEATHER_API_KEY") with
          | none => rw [hv] at hg; exact absurd rfl hg
          | some v => rfl
        · exfalso
          split at hmem
          · simp at hmem
          · split at hmem
            · simp at hmem
            · simp at hmem

/-- C8 at two sample runs: without `.env` file and variable the run is the four
help lines on standard error and exit status 1; with `WEATHER_API_KEY=abc` in
`.env` and the argument `Paris` the call of `FetchWeather` has key `abc` and
city `Paris`. -/
theorem main_requires_key_witness :
    (main (constRuntime OpenResult.notExist 200 (str "200 OK") sampleBody) emptyEnv
        [str "weather"] =
      [Event.stderr (str "Error: WEATHER_API_KEY is not set.\n"),
       Event.stderr (str "Add it to the .env file in the project directory:\n"),
       Event.stderr (str "  WEATHER_API_KEY=your_api_key_here\n"),
       Event.stderr (str "Get a free key at https://openweathermap.org/api\n"),
       Event.exit 1]) ∧
    (str "abc" ≠ [] ∧
      (loadDotEnv (constRuntime (OpenResult.opened (str "WEATHER_API_KEY=abc\n") none) 200
        (str "200 OK") sampleBody).fs (str ".env") emptyEnv).1 (str "WEATHER_API_KEY") =
          some (str "abc") ∧
      str "Paris" = cityOf [str "weather", str "Paris"]) :=
  ⟨((main_requires_key (constRuntime OpenResult.notExist 200 (str "200 OK") sampleBody)
      emptyEnv [str "weather"]).1 (Or.inl rfl)).1,
    (main_requires_key (constRuntime (OpenResult.opened (str "WEATHER_API_KEY=abc\n") none) 200
      (str "200 OK") sampleBody) emptyEnv [str "weather", str "Paris"]).2 (str "Paris")
      (str "abc") (List.mem_cons_self _ _)⟩

/-! ## `strings.TrimSpace`: lemmas -/

theorem trimLeftFuel_nil (n : Nat) : trimLeftFuel n [] = [] := by
  cases n <;> rfl

theorem mem_trimLeftFuel (n : Nat) (s : Bytes) (b : Nat) (h : b ∈ trimLeftFuel n s) :
    b ∈ s := by
  induction n generalizing s with
  | zero => exact h
  | succ n ih =>
    cases s with
    | nil => exact h
    | cons a t =>
      simp only [trimLeftFuel] at h
      split at h
      · exact List.mem_of_mem_drop (ih _ h)
      · exact h

theorem mem_trimRightFuel (n : Nat) (s : Bytes) (b : Nat) (h : b ∈ trimRightFuel n s) :
    b ∈ s := by
  induction n generalizing s with
  | zero => exact h
  | succ n ih =>
    cases s with
    | nil => exact h
    | cons a t =>
      simp only [trimRightFuel] at h
      split at h
      · exact List.mem_of_mem_take (ih _ h)
      · exact h

theorem mem_TrimSpace (s : Bytes) (b : Nat) (h : b ∈ TrimSpace s) : b ∈ s :=
  mem_trimLeftFuel _ _ _ (mem_trimRightFuel _ _ _ h)

theorem decodeFourth_width (s0 s1 s2 : Nat) (t2 : Bytes) :
    1 ≤ (decodeFourth s0 s1 s2 t2).2 ∧ (decodeFourth s0 s1 s2 t2).2 ≤ t2.length + 3 := by
  unfold decodeFourth
  split
  · simp
  · split <;> simp

theorem decodeThird_width (s0 s1 : Nat) (t1 : Bytes) :
    1 ≤ (decodeThird s0 s1 t1).2 ∧ (decodeThird s0 s1 t1).2 ≤ t1.length + 2 := by
  unfold decodeThird
  split
  · simp
  · rename_i s2 t2
    split
    · simp
    · split
      · simp
      · have := decodeFourth_width s0 s1 s2 t2
        simp only [List.length_cons]
        omega

theorem decodeSecond_width (s0 : Nat) (t : Bytes) :
    1 ≤ (decodeSecond s0 t).2 ∧ (decodeSecond s0 t).2 ≤ t.length + 1 := by
  unfold decodeSecond
  split
  · simp
  · rename_i s1 t1
    split
    · simp
    · split
      · simp
      · have := decodeThird_width s0 s1 t1
        simp only [List.length_cons]
        omega

theorem decodeRune_width_pos (a : Nat) (t : Bytes) : 1 ≤ (decodeRune (a :: t)).2 := by
  unfold decodeRune
  simp only []
  split
  · simp
  · split
    · simp
    · split
      · simp
      · exact (decodeSecond_width a t).1

theorem decodeRune_width_le (s : Bytes) : (decodeRune s).2 ≤ s.length := by
  unfold decodeRune
  split
  · simp
  · rename_i s0 t
    split
    · simp
    · split
      · simp
      · split
        · simp
        · exact (decodeSecond_width s0 t).2

theorem decodeFourth_append (s0 s1 s2 : Nat) (t2 : Bytes) (c : Nat) (hc : c < 0x80) :
    decodeFourth s0 s1 s2 (t2 ++ [c]) = decodeFourth s0 s1 s2 t2 := by
  cases t2 with
  | nil =>
    simp only [decodeFourth, List.nil_append]
    rw [if_pos (Or.inl hc)]
  | cons s3 t3 => rfl

theorem decodeThird_append (s0 s1 : Nat) (t1 : Bytes) (c : Nat) (hc : c < 0x80) :
    decodeThird s0 s1 (t1 ++ [c]) = decodeThird s0 s1 t1 := by
  cases t1 with
  | nil =>
    simp only [decodeThird, List.nil_append]
    rw [if_pos (Or.inl hc)]
  | cons s2 t2 =>
    simp only [decodeThird, List.cons_append, decodeFourth_append s0 s1 s2 t2 c hc]

theorem acceptLo_ge (s0 : Nat) : 0x80 ≤ acceptLo s0 := by
  unfold acceptLo
  split_ifs <;> omega

theorem decodeSecond_append (s0 : Nat) (t : Bytes) (c : Nat) (hc : c < 0x80) :
    decodeSecond s0 (t ++ [c]) = decodeSecond s0 t := by
  cases t with
  | nil =>
    simp only [decodeSecond, List.nil_append]
    rw [if_pos (Or.inl (by have := acceptLo_ge s0; omega))]
  | cons s1 t1 =>
    simp only [decodeSecond, List.cons_append, decodeThird_append s0 s1 t1 c hc]

theorem seqSize_cases (s0 : Nat) : seqSize s0 = 2 ∨ seqSize s0 = 3 ∨ seqSize s0 = 4 := by
  unfold seqSize
  split_ifs <;> simp

/-- A sequence cut short decodes to the error rune. -/
theorem decodeSecond_short (s0 : Nat) (t : Bytes) (h : t.length + 1 < seqSize s0) :
    decodeSecond s0 t = (runeError, 1) := by
  rcases t with _ | ⟨s1, _ | ⟨s2, _ | ⟨s3, t⟩⟩⟩
  · rfl
  · simp only [List.length_cons, List.length_nil] at h
    simp only [decodeSecond, decodeThird]
    split_ifs <;> first | rfl | omega
  · simp only [List.length_cons, List.length_nil] at h
    simp only [decodeSecond, decodeThird, decodeFourth]
    split_ifs <;> first | rfl | omega
  · simp only [List.length_cons] at h
    have := seqSize_cases s0
    omega

/-- A byte below 128 appended to a non-empty string does not change the rune
decoded at its front. -/
theorem decodeRune_append_ascii (s : Bytes) (c : Nat) (hs : s ≠ []) (hc : c < 0x80) :
    decodeRune (s ++ [c]) = decodeRune s := by
  cases s with
  | nil => exact absurd rfl hs
  | cons s0 t =>
    simp only [decodeRune, List.cons_append, List.length_append, List.length_cons,
      List.length_nil, decodeSecond_append s0 t c hc]
    by_cases h1 : s0 < 0x80
    · rw [if_pos h1, if_pos h1]
    · rw [if_neg h1, if_neg h1]
      by_cases h2 : s0 < 0xC2 ∨ 0xF4 < s0
      · rw [if_pos h2, if_pos h2]
      · rw [if_neg h2, if_neg h2]
        by_cases h3 : t.length + 1 < seqSize s0
        · rw [if_pos h3, decodeSecond_short s0 t h3]
          split <;> rfl
        · rw [if_neg h3, if_neg (by omega)]

theorem trimLeftFuel_append_cr (n : Nat) (t : Bytes) (h : t.length ≤ n) :
    trimLeftFuel (n + 1) (t ++ [13]) =
      if trimLeftFuel n t = [] then [] else trimLeftFuel n t ++ [13] := by
  induction n generalizing t with
  | zero =>
    have ht : t = [] := List.eq_nil_of_length_eq_zero (by omega)
    subst ht
    rfl
  | succ n ih =>
    cases t with
    | nil =>
      have h13 : trimLeftFuel (n + 1 + 1) ([] ++ [13]) = [] := by
        show trimLeftFuel (n + 1 + 1) [13] = []
        have hd : decodeRune [13] = (13, 1) := rfl
        have hsp : isSpace 13 = true := rfl
        simp only [trimLeftFuel, hd, hsp, if_true, List.drop_succ_cons, List.drop_zero]
      rw [h13, trimLeftFuel_nil]
      rfl
    | cons a t1 =>
      have hd : decodeRune ((a :: t1) ++ [13]) = decodeRune (a :: t1) :=
        decodeRune_append_ascii (a :: t1) 13 (List.cons_ne_nil a t1) (by omega)
      have hpos := decodeRune_width_pos a t1
      have hle := decodeRune_width_le (a :: t1)
      have hstep : trimLeftFuel (n + 1 + 1) ((a :: t1) ++ [13]) =
          if isSpace (decodeRune (a :: t1)).1 = true then
            trimLeftFuel (n + 1) (((a :: t1) ++ [13]).drop (decodeRune (a :: t1)).2)
          else (a :: t1) ++ [13] := by
        rw [← hd]
        rfl
      have hstep2 : trimLeftFuel (n + 1) (a :: t1) =
          if isSpace (decodeRune (a :: t1)).1 = true then
            trimLeftFuel n ((a :: t1).drop (decodeRune (a :: t1)).2)
          else a :: t1 := rfl
      rw [hstep, hstep2]
      by_cases hsp : isSpace (decodeRune (a :: t1)).1 = true
      · rw [if_pos hsp, if_pos hsp, List.drop_append_of_le_length hle]
        apply ih
        simp only [List.length_drop, List.length_cons] at h hle ⊢
        omega
      · rw [if_neg hsp, if_neg hsp, if_neg (List.cons_ne_nil a t1)]

theorem trimLeft_append_cr (t : Bytes) :
    trimLeft (t ++ [13]) = if trimLeft t = [] then [] else trimLeft t ++ [13] := by
  unfold trimLeft
  rw [List.length_append]
  exact trimLeftFuel_append_cr t.length t (le_refl _)

theorem decodeLastRune_append_cr (u : Bytes) : decodeLastRune (u ++ [13]) = (13, 1) := by
  unfold decodeLastRune
  have hlen : (u ++ [13]).length = u.length + 1 := by simp
  have hget : (u ++ [13]).getD ((u ++ [13]).length - 1) 0 = 13 := by
    rw [hlen]
    simp [List.getD_eq_getElem?_getD]
  rw [if_neg (by omega), hget, if_pos (by omega)]

theorem trimRight_append_cr (u : Bytes) : trimRight (u ++ [13]) = trimRight u := by
  unfold trimRight
  have hlen : (u ++ [13]).length = u.length + 1 := by simp
  rw [hlen]
  cases hu : u ++ [13] with
  | nil => simp at hu
  | cons a t =>
    have hsp : isSpace 13 = true := rfl
    have hl : (a :: t).length = u.length + 1 := by rw [← hu, hlen]
    simp only [trimRightFuel]
    rw [← hu, decodeLastRune_append_cr, if_pos hsp, hlen]
    simp

/-- The carriage return the scanner removes is white space: trimming gives
the same with and without it. -/
theorem TrimSpace_dropCR (s : Bytes) : TrimSpace (dropCR s) = TrimSpace s := by
  unfold dropCR
  split
  · rename_i h
    have hs : s = s.dropLast ++ [13] := by
      have hne : s ≠ [] := by
        intro h0
        rw [h0] at h
        simp at h
      have := List.dropLast_append_getLast hne
      rw [List.getLast?_eq_getLast s hne] at h
      injection h with h
      rw [h] at this
      exact this.symm
    generalize s.dropLast = t at hs
    subst hs
    unfold TrimSpace
    rw [trimLeft_append_cr]
    split
    · rename_i h0
      rw [h0]
    · rw [trimRight_append_cr]
  · rfl

theorem parseLine_dropCR (s : Bytes) : parseLine (dropCR s) = parseLine s := by
  unfold parseLine
  rw [TrimSpace_dropCR]

theorem loopBody_dropCR (env : Env) (s : Bytes) : loopBody env (dropCR s) = loopBody env s := by
  unfold loopBody
  rw [parseLine_dropCR]

/-! ## Files as lists of text lines -/

theorem scanFrom_append (l : Bytes) (h : 10 ∉ l) (cur rest : Bytes) :
    scanFrom cur (l ++ rest) = scanFrom (cur ++ l) rest := by
  induction l generalizing cur with
  | nil => simp
  | cons b t ih =>
    have hb : b ≠ 10 := fun hb => h (hb ▸ List.mem_cons_self b t)
    have ht : 10 ∉ t := fun ht => h (List.mem_cons_of_mem b ht)
    have h1 : scanFrom cur ((b :: t) ++ rest) = scanFrom (cur ++ [b]) (t ++ rest) := by
      show scanFrom cur (b :: (t ++ rest)) = _
      rw [scanFrom, if_neg hb]
    rw [h1, ih ht]
    simp

theorem scan_joinLines (ls : List Bytes) (hnl : ∀ x ∈ ls, 10 ∉ x) (env : Env) :
    ((scanLines (joinLines ls)).1.foldl loopBody env, (scanLines (joinLines ls)).2) =
      runText env ls := by
  induction ls generalizing env with
  | nil => rfl
  | cons l rest ih =>
    have hl : 10 ∉ l := hnl l (List.mem_cons_self l rest)
    cases rest with
    | nil =>
      have h1 : scanLines (joinLines [l]) = scanFrom l [] := by
        have := scanFrom_append l hl [] []
        simpa [scanLines, joinLines] using this
      rw [h1]
      simp only [scanFrom, runText]
      by_cases h0 : l = []
      · subst h0
        rfl
      · rw [if_neg h0]
        by_cases hlong : maxScanTokenSize ≤ l.length
        · rw [if_pos hlong, if_pos hlong]
          rfl
        · rw [if_neg hlong, if_neg hlong]
          simp only [List.foldl_cons, List.foldl_nil, loopBody_dropCR]
    | cons l2 ls =>
      have h1 : scanLines (joinLines (l :: l2 :: ls)) =
          scanFrom l (10 :: joinLines (l2 :: ls)) := by
        have := scanFrom_append l hl [] (10 :: joinLines (l2 :: ls))
        simpa [scanLines, joinLines] using this
      rw [h1]
      have ih2 := ih (fun x hx => hnl x (List.mem_cons_of_mem l hx)) (loopBody env l)
      simp only [scanFrom, if_true]
      rw [runText]
      by_cases hlong : maxScanTokenSize ≤ l.length
      · rw [if_pos hlong, if_pos hlong]
        rfl
      · rw [if_neg hlong, if_neg hlong]
        simp only [List.foldl_cons, loopBody_dropCR]
        exact ih2

/-- Loading a text file runs the loop over its lines. -/
theorem loadDotEnv_joinLines (ls : List Bytes) (hnl : ∀ x ∈ ls, 10 ∉ x)
    (readErr : Option Bytes) (filename : Bytes) (env : Env) :
    loadDotEnv (fileWith (joinLines ls) readErr) filename env =
      ((runText env ls).1, if (runText env ls).2 = true then some errTooLong else readErr) := by
  have h := scan_joinLines ls hnl env
  unfold loadDotEnv fileWith
  simp only []
  rw [← h]

/-! ## `env.go`: one variable at a time -/

theorem loopBody_apply (env : Env) (text k : Bytes) :
    (loopBody env text) k = stepVal (assigned k text) (env k) := by
  unfold loopBody assigned
  cases hp : parseLine text with
  | none => rfl
  | some kv =>
    obtain ⟨key, value⟩ := kv
    simp only []
    by_cases hv : setenvValid key value = true
    · have hne : key ≠ [] := by
        intro h0
        rw [h0] at hv
        simp [setenvValid] at hv
      by_cases hk : key = k
      · subst hk
        simp only [Getenv, if_neg hne, Setenv, hv, if_true, and_self, stepVal]
        split <;> simp
      · have hk2 : ¬ k = key := fun h => hk h.symm
        simp only [Setenv, hv, if_true, hk, false_and, if_false, stepVal]
        split <;> simp [hk2]
    · have hv2 : setenvValid key value = false := by simpa using hv
      simp only [Setenv, hv2, and_false, if_false, stepVal]
      split <;> simp

theorem foldl_loopBody_apply (ls : List Bytes) (env : Env) (k : Bytes) :
    (ls.foldl loopBody env) k =
      (ls.map (assigned k)).foldl (fun c o => stepVal o c) (env k) := by
  induction ls generalizing env with
  | nil => rfl
  | cons l rest ih =>
    simp only [List.foldl_cons, List.map_cons]
    rw [ih, loopBody_apply]

/-- A non-empty value is never replaced. -/
theorem foldl_stepVal_stable (os : List (Option Bytes)) (c : Option Bytes)
    (h : c.getD [] ≠ []) : os.foldl (fun c o => stepVal o c) c = c := by
  induction os with
  | nil => rfl
  | cons o rest ih =>
    simp only [List.foldl_cons]
    have : stepVal o c = c := by
      unfold stepVal
      cases o with
      | none => rfl
      | some v => simp [h]
    rw [this, ih]

theorem foldl_stepVal_empty (os : List (Option Bytes)) (s : Option Bytes)
    (h : (os.foldl (fun c o => stepVal o c) s).getD [] = []) :
    s.getD [] = [] ∧ ∀ v, some v ∈ os → v = [] := by
  induction os generalizing s with
  | nil => exact ⟨h, fun v hv => by simp at hv⟩
  | cons o rest ih =>
    simp only [List.foldl_cons] at h
    have hs : s.getD [] = [] := by
      by_contra hne
      have h1 : stepVal o s = s := by
        unfold stepVal
        cases o with
        | none => rfl
        | some v => simp [hne]
      rw [h1, foldl_stepVal_stable rest s hne] at h
      exact hne h
    obtain ⟨h1, h2⟩ := ih (stepVal o s) h
    refine ⟨hs, ?_⟩
    intro v hv
    rw [List.mem_cons] at hv
    rcases hv with hv | hv
    · subst hv
      simp only [stepVal, hs, if_true, Option.getD_some] at h1
      exact h1
    · exact h2 v hv

theorem foldl_stepVal_blank (os : List (Option Bytes)) (x : Option Bytes)
    (hx : x.getD [] = []) (h : ∀ v, some v ∈ os → v = []) :
    os.foldl (fun c o => stepVal o c) x = if some [] ∈ os then some [] else x := by
  induction os generalizing x with
  | nil => simp
  | cons o rest ih =>
    simp only [List.foldl_cons]
    have hrest : ∀ v, some v ∈ rest → v = [] := fun v hv => h v (List.mem_cons_of_mem o hv)
    cases o with
    | none =>
      rw [show stepVal none x = x from rfl, ih x hx hrest]
      simp
    | some v =>
      have hv : v = [] := h v (List.mem_cons_self _ _)
      subst hv
      have h1 : stepVal (some []) x = some [] := by simp [stepVal, hx]
      rw [h1, ih (some []) rfl hrest]
      simp

theorem foldl_stepVal_idem (os : List (Option Bytes)) (s : Option Bytes) :
    os.foldl (fun c o => stepVal o c) (os.foldl (fun c o => stepVal o c) s) =
      os.foldl (fun c o => stepVal o c) s := by
  by_cases he : (os.foldl (fun c o => stepVal o c) s).getD [] = []
  · obtain ⟨hs, hall⟩ := foldl_stepVal_empty os s he
    rw [foldl_stepVal_blank os _ he hall, foldl_stepVal_blank os s hs hall]
    split <;> rfl
  · exact foldl_stepVal_stable os _ he

theorem foldl_loopBody_idem (ls : List Bytes) (env : Env) :
    ls.foldl loopBody (ls.foldl loopBody env) = ls.foldl loopBody env := by
  funext k
  rw [foldl_loopBody_apply ls (ls.foldl loopBody env) k, foldl_loopBody_apply ls env k]
  exact foldl_stepVal_idem _ _

/-- C9: loading the same file a second time changes nothing: the environment
after two loads is the environment after one, and the returned error is the
same. -/
theorem loadDotEnv_idempotent (fs : Bytes → OpenResult) (filename : Bytes) (env : Env) :
    (loadDotEnv fs filename (loadDotEnv fs filename env).1).1 = (loadDotEnv fs filename env).1 ∧
    (loadDotEnv fs filename (loadDotEnv fs filename env).1).2 = (loadDotEnv fs filename env).2 := by
  unfold loadDotEnv
  cases fs filename with
  | notExist => exact ⟨rfl, rfl⟩
  | failed err => exact ⟨rfl, rfl⟩
  | opened content readErr => exact ⟨foldl_loopBody_idem _ env, rfl⟩

/-- A variable with a non-empty value keeps it through `loadDotEnv`. -/
theorem loadDotEnv_keeps_nonempty (fs : Bytes → OpenResult) (filename : Bytes) (env : Env)
    (k v : Bytes) (hk : env k = some v) (hv : v ≠ []) :
    (loadDotEnv fs filename env).1 k = some v := by
  unfold loadDotEnv
  cases fs filename with
  | notExist => exact hk
  | failed err => exact hk
  | opened content readErr =>
    simp only []
    rw [foldl_loopBody_apply, hk]
    exact foldl_stepVal_stable _ _ (by simpa using hv)

/-- C1: a variable that is set, to the empty string, before the call is
overwritten: with `FOO` set to the empty string and the file `FOO=bar`, `FOO` is
`bar` after `loadDotEnv`. -/
theorem loadDotEnv_overwrites_empty :
    emptyFooEnv (str "FOO") = some [] ∧
    (loadDotEnv (fileWith (str "FOO=bar\n") none) (str ".env") emptyFooEnv).1 (str "FOO") =
      some (str "bar") := by
  decide

/-! ## `env.go`: skipped lines -/

theorem indexByte_none (s : Bytes) (sep : Nat) (h : sep ∉ s) : indexByte s sep = none := by
  induction s with
  | nil => rfl
  | cons b t ih =>
    have hb : b ≠ sep := fun hb => h (hb ▸ List.mem_cons_self b t)
    have ht : sep ∉ t := fun ht => h (List.mem_cons_of_mem b ht)
    simp only [indexByte, if_neg hb, ih ht, Option.map_none']

theorem indexByte_append (K V : Bytes) (sep : Nat) (h : sep ∉ K) :
    indexByte (K ++ sep :: V) sep = some K.length := by
  induction K with
  | nil => simp [indexByte]
  | cons b t ih =>
    have hb : b ≠ sep := fun hb => h (hb ▸ List.mem_cons_self b t)
    have ht : sep ∉ t := fun ht => h (List.mem_cons_of_mem b ht)
    show indexByte (b :: (t ++ sep :: V)) sep = _
    rw [indexByte, if_neg hb, ih ht]
    rfl

theorem Cut_append (K V : Bytes) (sep : Nat) (h : sep ∉ K) :
    Cut (K ++ sep :: V) sep = (K, V, true) := by
  unfold Cut
  rw [indexByte_append K V sep h]
  simp

theorem parseLine_skipped (x : Bytes) (h : Skipped x) : parseLine x = none := by
  unfold parseLine
  rcases h with h | h | h
  · simp [h]
  · simp [h]
  · have h61 : 61 ∉ TrimSpace x := fun hm => h (mem_TrimSpace x 61 hm)
    simp only [Cut, indexByte_none _ 61 h61]
    split <;> rfl

theorem loopBody_skipped (env : Env) (x : Bytes) (h : Skipped x) : loopBody env x = env := by
  unfold loopBody
  rw [parseLine_skipped x h]

theorem runText_skipped (ls : List Bytes) (h : ∀ x ∈ ls, Skipped x) (env : Env) :
    (runText env ls).1 = env ∧
      ((∀ x ∈ ls, x.length < maxScanTokenSize) → (runText env ls).2 = false) := by
  induction ls with
  | nil => exact ⟨rfl, fun _ => rfl⟩
  | cons l rest ih =>
    have hl : Skipped l := h l (List.mem_cons_self l rest)
    obtain ⟨ih1, ih2⟩ := ih (fun x hx => h x (List.mem_cons_of_mem l hx))
    rw [runText, loopBody_skipped env l hl]
    constructor
    · split
      · rfl
      · exact ih1
    · intro hshort
      have h1 : ¬ maxScanTokenSize ≤ l.length := by
        have := hshort l (List.mem_cons_self l rest)
        omega
      rw [if_neg h1]
      exact ih2 (fun x hx => hshort x (List.mem_cons_of_mem l hx))

theorem runText_insert (pre post : List Bytes) (s : Bytes) (hs : Skipped s)
    (hshort : s.length < maxScanTokenSize) (env : Env) :
    runText env (pre ++ s :: post) = runText env (pre ++ post) := by
  induction pre generalizing env with
  | nil =>
    simp only [List.nil_append]
    rw [runText, if_neg (by omega), loopBody_skipped env s hs]
  | cons a rest ih =>
    simp only [List.cons_append, runText]
    split
    · rfl
    · exact ih _

theorem longLine_length : longLine.length = 65536 := List.length_replicate _ _

theorem not_mem_longLine (b : Nat) (h : b ≠ 120) : b ∉ longLine := by
  intro hm
  exact h (List.eq_of_mem_replicate hm)

/-- C3 as stated fails: the file whose single line is 65536 letters `x` has no
`=`, yet `loadDotEnv` returns the scanner's error `token too long`. -/
theorem loadDotEnv_long_line_error :
    (∀ x ∈ [longLine], 10 ∉ x ∧ Skipped x) ∧
    (loadDotEnv (fileWith (joinLines [longLine]) none) (str ".env") emptyEnv).2 =
      some errTooLong := by
  have hnl : ∀ x ∈ [longLine], 10 ∉ x := by
    intro x hx
    rw [List.mem_singleton] at hx
    rw [hx]
    exact not_mem_longLine 10 (by omega)
  constructor
  · intro x hx
    refine ⟨hnl x hx, ?_⟩
    rw [List.mem_singleton] at hx
    rw [hx]
    exact Or.inr (Or.inr (not_mem_longLine 61 (by omega)))
  · rw [loadDotEnv_joinLines [longLine] hnl]
    have hlong : maxScanTokenSize ≤ longLine.length := by
      rw [longLine_length]
      decide
    have hr : runText emptyEnv [longLine] = (emptyEnv, true) := by
      rw [runText, if_pos hlong]
    rw [hr]
    rfl

/-- C3, amended: a file whose lines are all blank, comments or without `=`
leaves the environment exactly as it was, and `loadDotEnv` returns no error of
its own when every line is shorter than 65536 bytes (the scanner's limit);
inserting or removing such a line shorter than 65536 bytes in any file changes
neither the environment nor the error `loadDotEnv` produces. -/
theorem loadDotEnv_skipped_lines (env : Env) (readErr : Option Bytes) (filename : Bytes)
    (ls pre post : List Bytes) (s : Bytes)
    (hls : ∀ x ∈ ls, 10 ∉ x ∧ Skipped x)
    (hnl : ∀ x ∈ pre ++ s :: post, 10 ∉ x) (hs : Skipped s)
    (hshort : s.length < maxScanTokenSize) :
    (loadDotEnv (fileWith (joinLines ls) readErr) filename env).1 = env ∧
    ((∀ x ∈ ls, x.length < maxScanTokenSize) →
      (loadDotEnv (fileWith (joinLines ls) readErr) filename env).2 = readErr) ∧
    loadDotEnv (fileWith (joinLines (pre ++ s :: post)) readErr) filename env =
      loadDotEnv (fileWith (joinLines (pre ++ post)) readErr) filename env := by
  have h1 := runText_skipped ls (fun x hx => (hls x hx).2) env
  refine ⟨?_, ?_, ?_⟩
  · rw [loadDotEnv_joinLines ls (fun x hx => (hls x hx).1)]
    exact h1.1
  · intro hall
    rw [loadDotEnv_joinLines ls (fun x hx => (hls x hx).1), h1.2 hall]
    rfl
  · have hnl2 : ∀ x ∈ pre ++ post, 10 ∉ x := by
      intro x hx
      apply hnl x
      rw [List.mem_append] at hx ⊢
      rcases hx with hx | hx
      · exact Or.inl hx
      · exact Or.inr (List.mem_cons_of_mem s hx)
    rw [loadDotEnv_joinLines _ hnl, loadDotEnv_joinLines _ hnl2,
      runText_insert pre post s hs hshort env]

/-- C3, amended, at a sample file: a comment with `=`, a blank line and a line
without `=` leave the empty environment empty and give no error, and the
comment inserted before `A=1` changes nothing. -/
theorem loadDotEnv_skipped_lines_witness :
    (loadDotEnv (fileWith (joinLines [str "# K=V", str "  ", str "export"]) none) (str ".env")
      emptyEnv).1 = emptyEnv ∧
    (loadDotEnv (fileWith (joinLines [str "# K=V", str "  ", str "export"]) none) (str ".env")
      emptyEnv).2 = none ∧
    loadDotEnv (fileWith (joinLines ([] ++ str "# K=V" :: [str "A=1"])) none) (str ".env")
        emptyEnv =
      loadDotEnv (fileWith (joinLines ([] ++ [str "A=1"])) none) (str ".env") emptyEnv :=
  have h := loadDotEnv_skipped_lines emptyEnv none (str ".env")
    [str "# K=V", str "  ", str "export"] [] [str "A=1"] (str "# K=V")
    (by decide) (by decide) (Or.inr (Or.inl (by decide))) (by decide)
  ⟨h.1, h.2.1 (by decide), h.2.2⟩

/-! ## `env.go`: the value a line assigns -/

theorem getLast?_eq_getD (a : Nat) (t : Bytes) :
    (a :: t).getLast? = some ((a :: t).getD ((a :: t).length - 1) 0) := by
  rw [List.getLast?_eq_getElem?, List.getD_eq_getElem?_getD]
  have hlt : (a :: t).length - 1 < (a :: t).length := by simp
  rw [List.getElem?_eq_getElem hlt]
  rfl

theorem stripQuotes_eq_stripSpec (v : Bytes) : stripQuotes v = stripSpec v := by
  cases v with
  | nil => rfl
  | cons a t =>
    unfold stripQuotes stripSpec
    rw [getLast?_eq_getD a t]
    simp only [List.head?_cons, List.getD_cons_zero, Option.some.injEq, List.tail_cons]
    split
    · rename_i h
      have ht : t ≠ [] := by
        intro h0
        rw [h0] at h
        simp at h
      rw [List.dropLast_eq_take]
      simp only [List.length_cons, Nat.add_sub_cancel]
      obtain ⟨n, hn⟩ : ∃ n, t.length = n + 1 :=
        ⟨t.length - 1, by have := List.length_pos.mpr ht; omega⟩
      rw [hn]
      simp
    · rfl

/-- The cases the specification lists: one pair of quotes is removed, a
second pair stays, inner white space stays, a lone quote and a mismatched
pair stay. -/
theorem stripQuotes_examples :
    stripQuotes (str "\"a b\"") = str "a b" ∧
    stripQuotes (str "'x'") = str "x" ∧
    stripQuotes (str "\"\"x\"\"") = str "\"x\"" ∧
    stripQuotes (str "\"") = str "\"" ∧
    stripQuotes (str "\"x'") = str "\"x'" ∧
    stripQuotes (str "\"\"") = [] := by
  decide

theorem mem_stripQuotes (v : Bytes) (b : Nat) (h : b ∈ stripQuotes v) : b ∈ v := by
  unfold stripQuotes at h
  split at h
  · exact List.mem_of_mem_take (List.mem_of_mem_drop h)
  · exact h

theorem parseLine_assignment (l K V : Bytes) (hline : TrimSpace l = K ++ 61 :: V)
    (hK : 61 ∉ K) (hc : HasPrefix (TrimSpace l) (str "#") = false) :
    parseLine l = some (TrimSpace K, stripQuotes (TrimSpace V)) := by
  unfold parseLine
  simp only []
  rw [if_neg]
  · rw [hline, Cut_append K V 61 hK]
    simp
  · rw [hc, hline]
    simp

theorem foldl_frame (ls : List Bytes) (k : Bytes) (h : ∀ x ∈ ls, assigned k x = none)
    (env : Env) : (ls.foldl loopBody env) k = env k := by
  induction ls generalizing env with
  | nil => rfl
  | cons l rest ih =>
    simp only [List.foldl_cons]
    rw [ih (fun x hx => h x (List.mem_cons_of_mem l hx)), loopBody_apply,
      h l (List.mem_cons_self l rest)]
    rfl

theorem runText_frame (ls : List Bytes) (k : Bytes) (h : ∀ x ∈ ls, assigned k x = none)
    (env : Env) : (runText env ls).1 k = env k := by
  induction ls generalizing env with
  | nil => rfl
  | cons l rest ih =>
    rw [runText]
    split
    · rfl
    · rw [ih (fun x hx => h x (List.mem_cons_of_mem l hx)), loopBody_apply,
        h l (List.mem_cons_self l rest)]
      rfl

theorem runText_append_short (pre rest : List Bytes)
    (h : ∀ x ∈ pre, x.length < maxScanTokenSize) (env : Env) :
    runText env (pre ++ rest) = runText (pre.foldl loopBody env) rest := by
  induction pre generalizing env with
  | nil => rfl
  | cons a t ih =>
    have ha : ¬ maxScanTokenSize ≤ a.length := by
      have := h a (List.mem_cons_self a t)
      omega
    simp only [List.cons_append, runText, if_neg ha, List.foldl_cons]
    exact ih (fun x hx => h x (List.mem_cons_of_mem a hx)) _

theorem assigned_other (k x : Bytes) (h : ∀ kv, parseLine x = some kv → kv.1 ≠ k) :
    assigned k x = none := by
  unfold assigned
  cases hp : parseLine x with
  | none => rfl
  | some kv =>
    obtain ⟨key, value⟩ := kv
    have := h (key, value) hp
    simp only []
    rw [if_neg]
    intro hh
    exact this hh.1

/-- C2 as stated fails: in the file whose single line is `A=` followed by a NUL
byte, `A` occurs in exactly one line and is not set before, but `os.Setenv`
rejects a value with a NUL byte, so `A` is still unset after `loadDotEnv`. -/
theorem loadDotEnv_nul_value_not_set :
    OnlyAssignment [] [] [65, 61, 0] [65] [0] [65] ∧
    emptyEnv [65] = none ∧
    (loadDotEnv (fileWith (joinLines ([] ++ [65, 61, 0] :: [])) none) (str ".env")
      emptyEnv).1 [65] = none ∧
    (loadDotEnv (fileWith (joinLines ([] ++ [65, 61, 0] :: [])) none) (str ".env")
      emptyEnv).1 [65] ≠ some (stripSpec (TrimSpace [0])) := by
  refine ⟨⟨by decide, by decide, by decide, by decide, by decide, by decide, ?_⟩,
    rfl, by decide, by decide⟩
  intro x hx
  simp at hx

/-- C2, amended: when the non-empty key `k` is assigned by exactly one line
`K=V` that is no comment, `k` is not set before, the line has no NUL byte, and
that line and the lines before it are shorter than 65536 bytes, then after
`loadDotEnv` the variable `k` is set to the trimmed `V` with one pair of
matching surrounding quotes removed. -/
theorem loadDotEnv_sets_value (env : Env) (readErr : Option Bytes) (filename : Bytes)
    (pre post : List Bytes) (l K V k : Bytes)
    (h : OnlyAssignment pre post l K V k) (hunset : env k = none)
    (hnul : 0 ∉ l)
    (hpre : ∀ x ∈ pre, x.length < maxScanTokenSize)
    (hl : l.length < maxScanTokenSize) :
    (loadDotEnv (fileWith (joinLines (pre ++ l :: post)) readErr) filename env).1 k =
      some (stripSpec (TrimSpace V)) := by
  rw [loadDotEnv_joinLines _ h.newlineFree, runText_append_short pre _ hpre, runText,
    if_neg (by omega)]
  have hpost : ∀ x ∈ post, assigned k x = none := fun x hx =>
    assigned_other k x (h.others x (List.mem_append_right pre hx))
  have hprek : ∀ x ∈ pre, assigned k x = none := fun x hx =>
    assigned_other k x (h.others x (List.mem_append_left post hx))
  show (runText _ post).1 k = _
  rw [runText_frame post k hpost, loopBody_apply, foldl_frame pre k hprek, hunset]
  have hparse := parseLine_assignment l K V h.line h.key h.notComment
  have hKl : ∀ b, b ∈ K → b ∈ l := fun b hb =>
    mem_TrimSpace l b (by rw [h.line]; exact List.mem_append_left _ hb)
  have hVl : ∀ b, b ∈ V → b ∈ l := fun b hb =>
    mem_TrimSpace l b (by rw [h.line]; exact List.mem_append_right _ (List.mem_cons_of_mem _ hb))
  have hk0 : 0 ∉ k := by
    intro hm
    rw [← h.trimmed] at hm
    exact hnul (hKl 0 (mem_TrimSpace K 0 hm))
  have hk61 : 61 ∉ k := by
    intro hm
    rw [← h.trimmed] at hm
    exact h.key (mem_TrimSpace K 61 hm)
  have hv0 : 0 ∉ stripQuotes (TrimSpace V) := by
    intro hm
    exact hnul (hVl 0 (mem_TrimSpace V 0 (mem_stripQuotes _ 0 hm)))
  have hvalid : setenvValid k (stripQuotes (TrimSpace V)) = true := by
    simp [setenvValid, h.nonEmpty, hk0, hk61, hv0]
  have hassigned : assigned k l = some (stripQuotes (TrimSpace V)) := by
    unfold assigned
    rw [hparse]
    simp only [h.trimmed, hvalid, and_self, if_true]
  rw [hassigned, stripQuotes_eq_stripSpec]
  rfl

/-- C2, amended, at a sample file: a comment, then `  KEY = "va lue"  `. -/
theorem loadDotEnv_sets_value_witness :
    (loadDotEnv (fileWith (joinLines ([str "# settings"] ++ str "  KEY = \"va lue\"  " ::
      [str ""])) none) (str ".env") emptyEnv).1 (str "KEY") =
      some (stripSpec (TrimSpace (str " \"va lue\""))) :=
  loadDotEnv_sets_value emptyEnv none (str ".env") [str "# settings"] [str ""]
    (str "  KEY = \"va lue\"  ") (str "KEY ") (str " \"va lue\"") (str "KEY")
    ⟨by decide, by decide, by decide, by decide, by decide, by decide, by
      intro x hx kv hp
      have hx2 : x = str "# settings" ∨ x = str "" := by simpa using hx
      rcases hx2 with hx2 | hx2
      · have hn : parseLine x = none := by rw [hx2]; decide
        rw [hn] at hp
        cases hp
      · have hn : parseLine x = none := by rw [hx2]; decide
        rw [hn] at hp
        cases hp⟩
    rfl (by decide) (by decide) (by decide)

end Weather
